import Mathlib

/-!
Verification of the `ovsinit` succession tracker and verifier framework.

The repository provides:
* `pkg/succession` — a SQLite-backed succession `Marker` (table of
  `HistoryEntry{ID, Owner}` rows, `MAX_HISTORY = 25`), with operations
  `CheckSuccession`, `Claim`, `CurrentOwner`, `GetHistory`, plus an earlier
  file-backed JSON realization (flock + atomic rename) of the same interface.
* `pkg/verifier` — the `Verifier` interface, the fan-out `Run` executor, the
  `HugePagesVerifier`, and the `FileRemovalVerifier`.

We embed the database state as the id-descending view that every query in the
code uses (`ORDER BY id DESC`): `rows` is the list of entries newest-first.
Database I/O errors have no counterpart in the in-memory model; the succession
operations are total functions on the modelled state.
-/

namespace Succession

/-- One row of the succession table: `HistoryEntry{ID uint, Owner string}`. -/
structure HistoryEntry where
  id : Nat
  owner : String
deriving DecidableEq, Repr

/-- `MAX_HISTORY = 25` from `pkg/succession`. -/
def MAX_HISTORY : Nat := 25

/-- The table state, viewed newest-first (the `ORDER BY id DESC` view used by
every query in the code). `nextId` is the next auto-increment primary key. -/
structure DB where
  rows : List HistoryEntry
  nextId : Nat
deriving DecidableEq, Repr

/-- A fresh database: `New` on an absent path creates the file and
`AutoMigrate` leaves an empty table. SQLite auto-increment starts at 1. -/
def emptyDB : DB := ⟨[], 1⟩

/-- `New(path, identity)`: an absent backing store is opened as an empty
database, never reported as an error. -/
def newDB (store : Option DB) : DB := store.getD emptyDB

/-- `CurrentOwner`: `First` of `ORDER BY id DESC`; `ErrRecordNotFound` is
mapped to the empty string. -/
def CurrentOwner (db : DB) : String :=
  match db.rows.head? with
  | some entry => entry.owner
  | none => ""

/-- The `COUNT(*) > 0 WHERE owner = ?` membership query in `CheckSuccession`. -/
def wasOwner (db : DB) (identity : String) : Bool :=
  db.rows.any (fun e => e.owner = identity)

/-- `Marker.CheckSuccession`: returns `(shouldProceed, isReplaced)`.
If there is no current owner or we are the current owner, `(true, false)`;
otherwise `(!wasOwner, wasOwner)`. -/
def CheckSuccession (db : DB) (identity : String) : Bool × Bool :=
  let currentOwner := CurrentOwner db
  if currentOwner = "" ∨ currentOwner = identity then
    (true, false)
  else
    (!wasOwner db identity, wasOwner db identity)

/-- `Marker.Claim`: insert a row for `identity` with a fresh id, then — in the
same transaction — if the row count exceeds `MAX_HISTORY`, delete every row not
among the `MAX_HISTORY` newest (`id NOT IN (SELECT id ORDER BY id DESC LIMIT
maxHistory)`). In the newest-first view the insert is a prepend and the trim
keeps the first `MAX_HISTORY` entries. -/
def Claim (db : DB) (identity : String) : DB :=
  let inserted := HistoryEntry.mk db.nextId identity :: db.rows
  let trimmed := if inserted.length > MAX_HISTORY then inserted.take MAX_HISTORY else inserted
  ⟨trimmed, db.nextId + 1⟩

/-- `Marker.GetHistory`: all rows, `ORDER BY id DESC` (newest first). -/
def GetHistory (db : DB) : List HistoryEntry := db.rows

/-- `claimMany db ids` performs the claims of `ids` in order. -/
def claimMany (db : DB) (ids : List String) : DB := ids.foldl Claim db

/-!
Stateful view: each `Marker` method as a transformer of the database state,
built from the individual queries the method issues. `SELECT` queries return
the state unchanged; only the `INSERT`/`DELETE` of `Claim` produce a new
state.
-/

/-- `First(ctx)` over `ORDER BY id DESC`: a `SELECT`, leaving the table as is. -/
def firstDescQ (db : DB) : DB × Option HistoryEntry := (db, db.rows.head?)

/-- The `COUNT(*) > 0 WHERE owner = ?` query: a `SELECT`. -/
def anyOwnerQ (db : DB) (identity : String) : DB × Bool :=
  (db, db.rows.any (fun e => e.owner = identity))

/-- `Find(ctx)` over `ORDER BY id DESC`: a `SELECT`. -/
def allDescQ (db : DB) : DB × List HistoryEntry := (db, db.rows)

/-- `Marker.CurrentOwner` threading the database state. -/
def CurrentOwnerS (db : DB) : DB × String :=
  let p := firstDescQ db
  (p.1, match p.2 with
        | some entry => entry.owner
        | none => "")

/-- `Marker.CheckSuccession` threading the database state. -/
def CheckSuccessionS (db : DB) (identity : String) : DB × (Bool × Bool) :=
  let p := CurrentOwnerS db
  if p.2 = "" ∨ p.2 = identity then
    (p.1, (true, false))
  else
    let q := anyOwnerQ p.1 identity
    (q.1, (!q.2, q.2))

/-- `Marker.GetHistory` threading the database state. -/
def GetHistoryS (db : DB) : DB × List HistoryEntry := allDescQ db

/-- `Marker.Claim` threading the database state (the one mutating method). -/
def ClaimS (db : DB) (identity : String) : DB × Unit := (Claim db identity, ())

/-- How many entries of the history belong to `identity`. -/
def countOwner (history : List HistoryEntry) (identity : String) : Nat :=
  (history.filter (fun e => e.owner = identity)).length

end Succession

namespace SuccessionFile

/-!
The file-backed realization of the succession `Marker` (flock + JSON +
atomic rename). The persisted file is modelled by `FileState`: absent
(`os.Open` fails with `IsNotExist`), corrupt (present but the JSON decoder
fails), or valid decoded `HistoryData`. Lock acquisition and raw I/O errors
have no in-memory counterpart and are outside the model; timestamps are
abstract naturals.
-/

/-- `HistoryEntry{Owner string, Timestamp time.Time}`. -/
structure HistoryEntry where
  owner : String
  timestamp : Nat
deriving DecidableEq, Repr

/-- `HistoryData{Current, History, Version}`. -/
structure HistoryData where
  current : HistoryEntry
  history : List HistoryEntry
  version : Nat
deriving DecidableEq, Repr

/-- The Go zero value of `HistoryData` (what `Claim` starts from on a new or
corrupted file). -/
def freshData : HistoryData := ⟨⟨"", 0⟩, [], 0⟩

/-- The persisted succession file, as seen by `os.Open` + `json.Decode`. -/
inductive FileState where
  | absent
  | corrupt
  | valid (data : HistoryData)
deriving DecidableEq, Repr

/-- The errors `readWithLock` can surface in the model: `os.IsNotExist` from
`os.Open`, or `failed to parse history` from the JSON decoder. -/
inductive ReadErr where
  | notExist
  | parseFailed
deriving DecidableEq, Repr

/-- Default `maxHistory` set by `New` in the file-backed variant. -/
def defaultMaxHistory : Nat := 100

/-- `Marker.readWithLock`: open the file (absent → `IsNotExist`), decode it
(undecodable → `failed to parse history`), otherwise return the data. -/
def readWithLock (fs : FileState) : Except ReadErr HistoryData :=
  match fs with
  | .absent => .error .notExist
  | .corrupt => .error .parseFailed
  | .valid data => .ok data

/-- `Marker.CheckSuccession` (file-backed): `IsNotExist` means first claimant;
any other read error is returned to the caller; otherwise the verdict is read
off this identity's position in the history (absent or top → proceed, deeper
→ replaced). -/
def CheckSuccession (fs : FileState) (identity : String) :
    Except ReadErr (Bool × Bool) :=
  match readWithLock fs with
  | .error .notExist => .ok (true, false)
  | .error e => .error e
  | .ok data =>
    match data.history.findIdx? (fun entry => entry.owner = identity) with
    | none => .ok (true, false)
    | some 0 => .ok (true, false)
    | some (_ + 1) => .ok (false, true)

/-- `Marker.CurrentOwner` (file-backed). -/
def CurrentOwner (fs : FileState) : Except ReadErr String :=
  match readWithLock fs with
  | .error .notExist => .ok ""
  | .error e => .error e
  | .ok data => .ok data.current.owner

/-- `Marker.GetHistory` (file-backed). -/
def GetHistory (fs : FileState) : Except ReadErr (List HistoryEntry) :=
  match readWithLock fs with
  | .error .notExist => .ok []
  | .error e => .error e
  | .ok data => .ok data.history

/-- `readWithLock` threading the file state: the file is opened read-only
under a shared lock, so the persisted state is returned unchanged. -/
def readWithLockS (fs : FileState) : FileState × Except ReadErr HistoryData :=
  (fs, readWithLock fs)

/-- File-backed `CheckSuccession` threading the file state. -/
def CheckSuccessionS (fs : FileState) (identity : String) :
    FileState × Except ReadErr (Bool × Bool) :=
  let p := readWithLockS fs
  (p.1,
   match p.2 with
   | .error .notExist => .ok (true, false)
   | .error e => .error e
   | .ok data =>
     match data.history.findIdx? (fun entry => entry.owner = identity) with
     | none => .ok (true, false)
     | some 0 => .ok (true, false)
     | some (_ + 1) => .ok (false, true))

/-- File-backed `CurrentOwner` threading the file state. -/
def CurrentOwnerS (fs : FileState) : FileState × Except ReadErr String :=
  let p := readWithLockS fs
  (p.1,
   match p.2 with
   | .error .notExist => .ok ""
   | .error e => .error e
   | .ok data => .ok data.current.owner)

/-- File-backed `GetHistory` threading the file state. -/
def GetHistoryS (fs : FileState) : FileState × Except ReadErr (List HistoryEntry) :=
  let p := readWithLockS fs
  (p.1,
   match p.2 with
   | .error .notExist => .ok []
   | .error e => .error e
   | .ok data => .ok data.history)

/-- `Marker.Claim` (file-backed): load the file (new or corrupted → start
fresh); if the claimant is already at the top only its timestamp is updated,
otherwise the new entry is prepended, older entries of the same owner are
filtered out, and the history is cut to `maxHistory`; the version is bumped
and the result replaces the file atomically. -/
def Claim (maxHistory : Nat) (fs : FileState) (identity : String) (now : Nat) :
    FileState :=
  let data :=
    match fs with
    | .valid d => d
    | _ => freshData
  let newEntry := HistoryEntry.mk identity now
  let data' :=
    match data.history with
    | top :: rest =>
      if top.owner = identity then
        { data with
            current := newEntry
            history := HistoryEntry.mk top.owner now :: rest }
      else
        { data with
            current := newEntry
            history :=
              (newEntry ::
                (top :: rest).filter (fun entry => entry.owner ≠ identity)).take
                maxHistory }
    | [] =>
      { data with
          current := newEntry
          history := [newEntry].take maxHistory }
  .valid { data' with version := data'.version + 1 }

/-- The history recorded in a file state (empty when nothing valid is
persisted). -/
def stateHistory : FileState → List HistoryEntry
  | .valid data => data.history
  | _ => []

end SuccessionFile

namespace Verifier

/-!
The `pkg/verifier` framework. A `Verify(ctx)` call is embedded as a function
of the schedule of channel firings it observes: the sequence of ticker reads
or watcher events delivered before the context's done channel fires, and the
reason the context ended. `error` values are modelled by the inductive
`GoError`, with one constructor per `fmt.Errorf`/sentinel shape the code
produces.
-/

/-- Why a context's done channel fired. -/
inductive CtxErr where
  | deadlineExceeded
  | canceled
deriving DecidableEq, Repr

/-- The Go error values produced by the verifier code paths in the model. -/
inductive GoError where
  /-- `context.DeadlineExceeded` returned via `ctx.Err()`. -/
  | ctxDeadlineExceeded
  /-- `context.Canceled` returned via `ctx.Err()`. -/
  | ctxCanceled
  /-- `errors.New("watcher channel closed")` / error-channel delivery. -/
  | watcherFailed
  /-- `fmt.Errorf("timeout waiting for %s: %w", v.String(), ctx.Err())`. -/
  | fileRemovalTimeout (description : String) (inner : GoError)
  /-- `fmt.Errorf("%s: %w", v.String(), err)` wrapping inside `Run`'s goroutine. -/
  | verifierFailed (description : String) (inner : GoError)
  /-- `fmt.Errorf("verification failed: %w", err)` at `Run`'s exit. -/
  | verificationFailed (inner : GoError)
  /-- Any other error a mock or concrete verifier returns. -/
  | other (msg : String)
deriving DecidableEq, Repr

/-- `ctx.Err()` for the given termination reason. -/
def CtxErr.toError : CtxErr → GoError
  | .deadlineExceeded => .ctxDeadlineExceeded
  | .canceled => .ctxCanceled

/-- One read of `/proc/meminfo` by the hugepages poll loop: either the read
errors, or it yields the optional `HugePages_Free` and `HugePages_Total`
fields. -/
inductive MemRead where
  | readFailed
  | ok (free : Option Nat) (total : Option Nat)
deriving DecidableEq, Repr

/-- Whether one poll iteration of `HugePagesVerifier.Verify` returns `nil`:
the meminfo read failed ("assuming process exited"), `HugePagesFree` is
present and positive, or `HugePagesTotal` is present and zero. -/
def hugePagesIterationDone (r : MemRead) : Bool :=
  match r with
  | .readFailed => true
  | .ok free total =>
    (match free with
     | some f => decide (f > 0)
     | none => false) ||
    (match total with
     | some t => decide (t = 0)
     | none => false)

/-- `HugePagesVerifier.Verify`, as a function of the ticker observations
delivered before the context ends and of the reason the context ended: each
tick either finishes the loop with `nil` or keeps waiting; when `ctx.Done()`
fires, `DeadlineExceeded` is swallowed ("proceeding anyway") and any other
cause is returned via `ctx.Err()`. -/
def hugePagesVerify (obs : List MemRead) (done : CtxErr) : Except GoError Unit :=
  match obs with
  | [] =>
    match done with
    | .deadlineExceeded => .ok ()
    | .canceled => .error .ctxCanceled
  | r :: rest =>
    if hugePagesIterationDone r then .ok () else hugePagesVerify rest done

/-- One event delivered on the fsnotify watcher's event channel, abstracted to
the two tests the loop applies: `event.Op & fsnotify.Remove == fsnotify.Remove`
and `filepath.Match(v.pattern, event.Name)`. -/
structure FsEvent where
  isRemove : Bool
  matchesPattern : Bool
deriving DecidableEq, Repr

/-- `v.String()` of `FileRemovalVerifier`. -/
def fileRemovalDescription (pattern : String) : String :=
  "file_removal(" ++ pattern ++ ")"

/-- The watch loop of `FileRemovalVerifier.Verify`: succeed on the first
removal event matching the pattern; when the context ends — for either reason
— return the `timeout waiting` error wrapping `ctx.Err()`. -/
def fileRemovalLoop (pattern : String) (events : List FsEvent) (done : CtxErr) :
    Except GoError Unit :=
  match events with
  | [] => .error (.fileRemovalTimeout (fileRemovalDescription pattern) done.toError)
  | e :: rest =>
    if e.isRemove && e.matchesPattern then .ok ()
    else fileRemovalLoop pattern rest done

/-- `FileRemovalVerifier.Verify`: first `filepath.Glob` is consulted
(`existsAtGlob` = whether any match exists at that instant); with no match it
returns `nil` immediately; otherwise the watcher is created and added *after*
the glob, and the loop runs over the events the watcher actually delivers. -/
def fileRemovalVerify (pattern : String) (existsAtGlob : Bool)
    (events : List FsEvent) (done : CtxErr) : Except GoError Unit :=
  if existsAtGlob then fileRemovalLoop pattern events done
  else .ok ()

/-- When, relative to `Verify`'s own steps, the environment deletes the (only)
file matching the pattern. The watcher starts delivering events only once
`watcher.Add(dir)` has completed. -/
inductive DeletePhase where
  | beforeGlob
  | betweenGlobAndWatch
  | afterWatch
deriving DecidableEq, Repr

/-- Whether the glob performed at the start of `Verify` still sees the file. -/
def deletionSeenByGlob : DeletePhase → Bool
  | .beforeGlob => false
  | .betweenGlobAndWatch => true
  | .afterWatch => true

/-- The removal events the watcher delivers: only a deletion performed after
the watch is established produces an event. -/
def deletionEvents : DeletePhase → List FsEvent
  | .beforeGlob => []
  | .betweenGlobAndWatch => []
  | .afterWatch => [⟨true, true⟩]

/-- An execution of `FileRemovalVerifier.Verify` against an environment that
deletes the watched file during phase `p` and whose context, if reached, ends
for reason `done`. -/
def fileRemovalRun (pattern : String) (p : DeletePhase) (done : CtxErr) :
    Except GoError Unit :=
  fileRemovalVerify pattern (deletionSeenByGlob p) (deletionEvents p) done

/-- One verifier handed to `Run`, abstracted to its description string and the
result of its `Verify` call. -/
structure VerifierOutcome where
  description : String
  result : Except GoError Unit
deriving Repr

/-- The closure `Run` hands to `g.Go`: a failing `Verify` is wrapped as
`fmt.Errorf("%s: %w", v.String(), err)`. -/
def goTask (v : VerifierOutcome) : Except GoError Unit :=
  match v.result with
  | .ok () => .ok ()
  | .error e => .error (.verifierFailed v.description e)

/-- `errgroup.Group.Wait`: all tasks are waited for and the first error
encountered (here: the first failing task in encounter order) is returned. -/
def waitAll (results : List (Except GoError Unit)) : Except GoError Unit :=
  match results with
  | [] => .ok ()
  | .ok () :: rest => waitAll rest
  | .error e :: _ => .error e

/-- `verifier.Run`: fan the verifiers out through `goTask`, wait for all, and
wrap a failure as `verification failed: ...`. -/
def Run (verifiers : List VerifierOutcome) : Except GoError Unit :=
  match waitAll (verifiers.map goTask) with
  | .ok () => .ok ()
  | .error e => .error (.verificationFailed e)

end Verifier

/-! ## Helper lemmas -/

namespace Succession

theorem claim_rows_eq_take (db : DB) (identity : String) :
    (Claim db identity).rows =
      (HistoryEntry.mk db.nextId identity :: db.rows).take MAX_HISTORY := by
  unfold Claim
  by_cases h : (HistoryEntry.mk db.nextId identity :: db.rows).length > MAX_HISTORY
  · simp [h]
  · simp only [h, if_false]
    exact (List.take_of_length_le (Nat.le_of_not_lt h)).symm

theorem claim_rows_length_le (db : DB) (identity : String) :
    (Claim db identity).rows.length ≤ MAX_HISTORY := by
  rw [claim_rows_eq_take]
  exact (List.length_take _ _).trans_le (min_le_left _ _)

theorem claim_head (db : DB) (identity : String) :
    (Claim db identity).rows.head? = some (HistoryEntry.mk db.nextId identity) := by
  rw [claim_rows_eq_take]
  rfl

theorem claimMany_cons (db : DB) (x : String) (xs : List String) :
    claimMany db (x :: xs) = claimMany (Claim db x) xs := rfl

/-- A nonempty batch of claims factors through a final `Claim` of the last
identity in the batch. -/
theorem claimMany_factor :
    ∀ (ids : List String) (db : DB), ids ≠ [] →
      ∃ db' l, ids.getLast? = some l ∧ claimMany db ids = Claim db' l
  | [], _, h => absurd rfl h
  | [x], db, _ => ⟨db, x, rfl, rfl⟩
  | x :: y :: xs, db, _ => by
    obtain ⟨db', l, hl, hc⟩ := claimMany_factor (y :: xs) (Claim db x) (by simp)
    exact ⟨db', l, by simpa using hl, hc⟩

/-- The stateful `CheckSuccession` computes the pure verdict. -/
theorem checkSuccessionS_snd (db : DB) (identity : String) :
    (CheckSuccessionS db identity).2 = CheckSuccession db identity := by
  unfold CheckSuccessionS CheckSuccession CurrentOwnerS CurrentOwner firstDescQ
    anyOwnerQ wasOwner
  by_cases h : (match db.rows.head? with
                | some entry => entry.owner
                | none => "") = "" ∨
               (match db.rows.head? with
                | some entry => entry.owner
                | none => "") = identity <;>
    simp [h]

end Succession

namespace SuccessionFile

/-- The stateful file-backed `CheckSuccession` computes the pure verdict. -/
theorem fileCheckSuccessionS_snd (fs : FileState) (identity : String) :
    (CheckSuccessionS fs identity).2 = CheckSuccession fs identity := rfl

/-- The already-current branch of the file-backed `Claim`: the top entry's
timestamp is rewritten in place; no entry is appended or removed. -/
theorem fileClaim_current_eq (maxHistory now : Nat) (identity : String)
    (data : HistoryData) (top : HistoryEntry) (rest : List HistoryEntry)
    (hdata : data.history = top :: rest) (htop : top.owner = identity) :
    Claim maxHistory (.valid data) identity now =
      .valid ⟨HistoryEntry.mk identity now,
        HistoryEntry.mk identity now :: rest, data.version + 1⟩ := by
  cases data with
  | mk current history version =>
    simp only at hdata
    subst hdata
    simp [Claim, htop]

/-- The takeover branch of the file-backed `Claim`: the new entry is
prepended, the claimant's older entries are filtered out, and the history is
cut to `maxHistory`. -/
theorem fileClaim_takeover_eq (maxHistory now : Nat) (identity : String)
    (data : HistoryData) (top : HistoryEntry) (rest : List HistoryEntry)
    (hdata : data.history = top :: rest) (hne : top.owner ≠ identity) :
    Claim maxHistory (.valid data) identity now =
      .valid ⟨HistoryEntry.mk identity now,
        (HistoryEntry.mk identity now ::
          (top :: rest).filter (fun entry => entry.owner ≠ identity)).take
          maxHistory,
        data.version + 1⟩ := by
  cases data with
  | mk current history version =>
    simp only at hdata
    subst hdata
    simp [Claim, hne]

end SuccessionFile

namespace Verifier

/-- While every poll observation keeps the hugepages loop waiting, the result
is decided by the context's termination alone. -/
theorem hugePagesVerify_waiting (done : CtxErr) :
    ∀ (obs : List MemRead), (∀ r ∈ obs, hugePagesIterationDone r = false) →
      hugePagesVerify obs done = hugePagesVerify [] done
  | [], _ => rfl
  | r :: rest, h => by
    have hr : hugePagesIterationDone r = false := h r (List.mem_cons_self r rest)
    have ih := hugePagesVerify_waiting done rest
      (fun x hx => h x (List.mem_cons_of_mem r hx))
    simp [hugePagesVerify, hr, ih]

/-- If no delivered event is a removal matching the pattern, the watch loop
runs until the context ends and returns the `timeout waiting` error. -/
theorem fileRemovalLoop_no_match (pattern : String) (done : CtxErr) :
    ∀ (events : List FsEvent),
      (∀ e ∈ events, (e.isRemove && e.matchesPattern) = false) →
      fileRemovalLoop pattern events done =
        .error (.fileRemovalTimeout (fileRemovalDescription pattern) done.toError)
  | [], _ => rfl
  | e :: rest, h => by
    have he := h e (List.mem_cons_self e rest)
    have ih := fileRemovalLoop_no_match pattern done rest
      (fun x hx => h x (List.mem_cons_of_mem e hx))
    simp [fileRemovalLoop, he, ih]

/-- `errgroup.Wait` over tasks that all succeeded returns `nil`. -/
theorem waitAll_ok_of_forall :
    ∀ (results : List (Except GoError Unit)),
      (∀ r ∈ results, r = .ok ()) → waitAll results = .ok ()
  | [], _ => rfl
  | r :: rest, h => by
    have hr := h r (List.mem_cons_self r rest)
    have ih := waitAll_ok_of_forall rest (fun x hx => h x (List.mem_cons_of_mem r hx))
    rw [hr]
    simpa [waitAll] using ih

/-- `errgroup.Wait` returns the first failing task's (wrapped) error once all
tasks before it succeeded. -/
theorem waitAll_first_error (v : VerifierOutcome) (post : List VerifierOutcome)
    (e : GoError) (hv : v.result = .error e) :
    ∀ (pre : List VerifierOutcome), (∀ w ∈ pre, w.result = .ok ()) →
      waitAll ((pre ++ v :: post).map goTask) =
        .error (.verifierFailed v.description e)
  | [], _ => by simp [goTask, hv, waitAll]
  | w :: rest, h => by
    have hw := h w (List.mem_cons_self w rest)
    have ih := waitAll_first_error v post e hv rest
      (fun x hx => h x (List.mem_cons_of_mem w hx))
    simp only [List.cons_append, List.map_cons, goTask, hw, waitAll]
    exact ih

end Verifier

/-! ## Claim theorems -/

/-- C1 (supersession): starting from an empty log, after identity `A` claims
and then a distinct identity `B` claims, `A`'s `CheckSuccession` returns
`(shouldProceed := false, isReplaced := true)`. Shown for the SQLite-backed
`Marker` and for the file-backed one. Identities are caller-supplied,
non-empty strings (spec §6), whence the `B ≠ ""` hypothesis for the SQLite
variant, whose `CurrentOwner` encodes "no owner" as `""`. -/
theorem C1_supersession (A B : String) (hne : B ≠ A) (hB : B ≠ "") :
    Succession.CheckSuccession
        (Succession.Claim (Succession.Claim Succession.emptyDB A) B) A =
      (false, true) ∧
    ∀ tA tB : Nat,
      SuccessionFile.CheckSuccession
          (SuccessionFile.Claim SuccessionFile.defaultMaxHistory
            (SuccessionFile.Claim SuccessionFile.defaultMaxHistory .absent A tA)
            B tB) A =
        .ok (false, true) := by
  constructor
  · simp [Succession.CheckSuccession, Succession.CurrentOwner, Succession.wasOwner,
      Succession.Claim, Succession.emptyDB, Succession.MAX_HISTORY, hne, hB]
  · intro tA tB
    simp [SuccessionFile.CheckSuccession, SuccessionFile.Claim,
      SuccessionFile.readWithLock, SuccessionFile.freshData,
      SuccessionFile.defaultMaxHistory, hne, Ne.symm hne, List.findIdx?]

/-- Witness for C1 at concrete identities. -/
theorem C1_supersession_witness :
    Succession.CheckSuccession
        (Succession.Claim (Succession.Claim Succession.emptyDB "pod-a") "pod-b")
        "pod-a" =
      (false, true) :=
  (C1_supersession "pod-a" "pod-b" (by decide) (by decide)).1

/-- C4 (first claimant): on a fresh store the log is empty and
`CheckSuccession` answers `(true, false)` for every identity; an absent
backing store is read as an empty log, not as an error — `New` on an absent
path yields the empty database, the file-backed `CheckSuccession` maps
`IsNotExist` to `(true, false)`, and the file-backed `GetHistory` and
`CurrentOwner` map it to the empty history and empty owner. -/
theorem C4_first_claimant (identity : String) :
    Succession.CheckSuccession (Succession.newDB none) identity = (true, false) ∧
    SuccessionFile.CheckSuccession .absent identity = .ok (true, false) ∧
    SuccessionFile.GetHistory .absent = .ok [] ∧
    SuccessionFile.CurrentOwner .absent = .ok "" := by
  refine ⟨?_, rfl, rfl, rfl⟩
  simp [Succession.CheckSuccession, Succession.CurrentOwner, Succession.newDB,
    Succession.emptyDB]

/-- C5, counterexample: with an unparseable persisted log, `CheckSuccession`
does not behave as if the log were empty — it surfaces the
`failed to parse history` error instead of the empty-log verdict
`(true, false)`. -/
theorem C5_corruption_counterexample :
    SuccessionFile.CheckSuccession .corrupt "pod-a" = .error .parseFailed ∧
    SuccessionFile.CheckSuccession .corrupt "pod-a" ≠ .ok (true, false) :=
  ⟨rfl, fun h => Except.noConfusion h⟩

/-- C5, amended: only `Claim` recovers from a corrupted persisted log by
starting from a fresh (empty) history — it behaves exactly as on an absent
file; the read operations `CheckSuccession`, `CurrentOwner` and `GetHistory`
instead propagate the parse error to the caller. -/
theorem C5_corruption_amended (identity : String) (now maxHistory : Nat) :
    SuccessionFile.Claim maxHistory .corrupt identity now =
      SuccessionFile.Claim maxHistory .absent identity now ∧
    SuccessionFile.CheckSuccession .corrupt identity = .error .parseFailed ∧
    SuccessionFile.CurrentOwner .corrupt = .error .parseFailed ∧
    SuccessionFile.GetHistory .corrupt = .error .parseFailed :=
  ⟨rfl, rfl, rfl, rfl⟩

/-- C6 (artifact verifier race): `FileRemovalVerifier.Verify` checks with
`Glob` first and only then creates and registers the watcher, and it never
re-checks after subscribing. An execution in which the file is deleted
between the glob and the watch therefore delivers no removal event, the loop
blocks until the context's deadline, and `Verify` returns the
`timeout waiting` failure — refuting the claim that every deletion after
`Verify` begins leads to success. -/
theorem C6_race_missed_deletion :
    Verifier.fileRemovalRun "/var/run/x.pid" .betweenGlobAndWatch
        .deadlineExceeded =
      .error (.fileRemovalTimeout (Verifier.fileRemovalDescription "/var/run/x.pid")
        .ctxDeadlineExceeded) ∧
    ¬ (∀ (p : Verifier.DeletePhase) (done : Verifier.CtxErr),
        Verifier.fileRemovalRun "/var/run/x.pid" p done = .ok ()) := by
  exact ⟨rfl, fun h =>
    Except.noConfusion (h .betweenGlobAndWatch .deadlineExceeded)⟩

/-- C2, counterexample: the file-backed `Claim` cited by the claim violates
it at a concrete input. When `pod-a` is already the current owner of the
one-entry log `[{pod-a, t=0}]`, its reclaim at `t=5` rewrites the existing
entry's timestamp in place and appends nothing — the log afterwards still
holds one entry for `pod-a`, not one more than before. Moreover, a reclaim by
`pod-a` from the middle of a two-entry log removes `pod-a`'s older entry even
though the log is far below capacity. -/
theorem C2_append_only_counterexample :
    SuccessionFile.Claim SuccessionFile.defaultMaxHistory
        (.valid ⟨⟨"pod-a", 0⟩, [⟨"pod-a", 0⟩], 1⟩) "pod-a" 5 =
      .valid ⟨⟨"pod-a", 5⟩, [⟨"pod-a", 5⟩], 2⟩ ∧
    (SuccessionFile.stateHistory
        (SuccessionFile.Claim SuccessionFile.defaultMaxHistory
          (.valid ⟨⟨"pod-a", 0⟩, [⟨"pod-a", 0⟩], 1⟩) "pod-a" 5)).length =
      (SuccessionFile.stateHistory
        (.valid ⟨⟨"pod-a", 0⟩, [⟨"pod-a", 0⟩], 1⟩)).length ∧
    SuccessionFile.Claim SuccessionFile.defaultMaxHistory
        (.valid ⟨⟨"pod-b", 3⟩, [⟨"pod-b", 3⟩, ⟨"pod-a", 0⟩], 2⟩) "pod-a" 5 =
      .valid ⟨⟨"pod-a", 5⟩, [⟨"pod-a", 5⟩, ⟨"pod-b", 3⟩], 3⟩ :=
  ⟨rfl, rfl, rfl⟩

/-- C2, amended (append-only audit trail): the SQLite-backed `Claim` always
appends — the new history is exactly the new entry followed by the old log,
cut to capacity, and below capacity (in particular when the claiming identity
is already the current owner) the log afterwards holds one more entry for the
claimant than before. The file-backed `Claim`, by contrast, rewrites the top
entry's timestamp in place when the claimant is already current, leaving the
log length unchanged (no new entry), and on takeover it prepends the new
entry but removes the claimant's own older entries, so afterwards the only
entry for the claimant is the new one. -/
theorem C2_append_only (db : Succession.DB) (identity : String)
    (maxHistory now : Nat) (data : SuccessionFile.HistoryData)
    (top : SuccessionFile.HistoryEntry)
    (rest : List SuccessionFile.HistoryEntry)
    (hdata : data.history = top :: rest) :
    Succession.GetHistory (Succession.Claim db identity) =
      (Succession.HistoryEntry.mk db.nextId identity ::
        Succession.GetHistory db).take Succession.MAX_HISTORY ∧
    (db.rows.length < Succession.MAX_HISTORY →
      Succession.GetHistory (Succession.Claim db identity) =
        Succession.HistoryEntry.mk db.nextId identity ::
          Succession.GetHistory db ∧
      Succession.countOwner
          (Succession.GetHistory (Succession.Claim db identity)) identity =
        Succession.countOwner (Succession.GetHistory db) identity + 1) ∧
    (top.owner = identity →
      SuccessionFile.Claim maxHistory (.valid data) identity now =
        .valid ⟨SuccessionFile.HistoryEntry.mk identity now,
          SuccessionFile.HistoryEntry.mk identity now :: rest,
          data.version + 1⟩ ∧
      (SuccessionFile.stateHistory
          (SuccessionFile.Claim maxHistory (.valid data) identity now)).length =
        data.history.length) ∧
    (top.owner ≠ identity →
      ∀ e ∈ SuccessionFile.stateHistory
          (SuccessionFile.Claim maxHistory (.valid data) identity now),
        e.owner = identity → e = SuccessionFile.HistoryEntry.mk identity now) := by
  refine ⟨Succession.claim_rows_eq_take db identity, fun hlen => ?_,
    fun htop => ?_, fun hne => ?_⟩
  · have hcons : Succession.GetHistory (Succession.Claim db identity) =
        Succession.HistoryEntry.mk db.nextId identity ::
          Succession.GetHistory db := by
      rw [show Succession.GetHistory (Succession.Claim db identity) =
          (Succession.Claim db identity).rows from rfl,
        Succession.claim_rows_eq_take]
      exact List.take_of_length_le (by simpa using hlen)
    refine ⟨hcons, ?_⟩
    rw [hcons]
    simp [Succession.countOwner, Succession.GetHistory, List.filter]
  · have hc := SuccessionFile.fileClaim_current_eq maxHistory now identity
      data top rest hdata htop
    refine ⟨hc, ?_⟩
    rw [hc, hdata]
    simp [SuccessionFile.stateHistory]
  · have hc := SuccessionFile.fileClaim_takeover_eq maxHistory now identity
      data top rest hdata hne
    rw [hc]
    intro e he hid
    simp only [SuccessionFile.stateHistory] at he
    have hmem := List.take_subset _ _ he
    rcases List.mem_cons.mp hmem with heq | hmem'
    · exact heq
    · have hp := List.of_mem_filter hmem'
      simp only [decide_not, Bool.not_eq_eq_eq_not, Bool.not_true,
        decide_eq_false_iff_not] at hp
      exact absurd hid hp

/-- Witness for C2 at concrete inputs: the SQLite current owner `pod-a`
reclaims on a one-entry log and the log afterwards holds two entries for it;
the file-backed reclaim by the current owner leaves the log length at one;
the file-backed takeover by `pod-a` leaves `{pod-a, 5}` as its only entry. -/
theorem C2_append_only_witness :
    (Succession.DB.mk [Succession.HistoryEntry.mk 1 "pod-a"] 2).rows.length <
      Succession.MAX_HISTORY ∧
    Succession.countOwner
        (Succession.GetHistory
          (Succession.Claim
            (Succession.DB.mk [Succession.HistoryEntry.mk 1 "pod-a"] 2)
            "pod-a"))
        "pod-a" =
      Succession.countOwner
          (Succession.GetHistory
            (Succession.DB.mk [Succession.HistoryEntry.mk 1 "pod-a"] 2))
          "pod-a" + 1 ∧
    (SuccessionFile.stateHistory
        (SuccessionFile.Claim 100
          (.valid ⟨⟨"pod-a", 0⟩, [⟨"pod-a", 0⟩], 1⟩) "pod-a" 5)).length = 1 ∧
    (∀ e ∈ SuccessionFile.stateHistory
        (SuccessionFile.Claim 100
          (.valid ⟨⟨"pod-b", 3⟩, [⟨"pod-b", 3⟩, ⟨"pod-a", 0⟩], 2⟩)
          "pod-a" 5),
      e.owner = "pod-a" → e = SuccessionFile.HistoryEntry.mk "pod-a" 5) := by
  have h1 := C2_append_only
    (Succession.DB.mk [Succession.HistoryEntry.mk 1 "pod-a"] 2) "pod-a" 100 5
    ⟨⟨"pod-a", 0⟩, [⟨"pod-a", 0⟩], 1⟩ ⟨"pod-a", 0⟩ [] rfl
  have h2 := C2_append_only
    (Succession.DB.mk [Succession.HistoryEntry.mk 1 "pod-a"] 2) "pod-a" 100 5
    ⟨⟨"pod-b", 3⟩, [⟨"pod-b", 3⟩, ⟨"pod-a", 0⟩], 2⟩ ⟨"pod-b", 3⟩
    [⟨"pod-a", 0⟩] rfl
  exact ⟨by decide, (h1.2.1 (by decide)).2, (h1.2.2.1 rfl).2,
    h2.2.2.2 (by decide)⟩

/-- C3, counterexample: the file-backed `New` cited by the claim defaults
`maxHistory` to 100, not 25, and under that default a successful file-backed
claim on a 25-entry log leaves 26 entries — more than `MAX_HISTORY = 25`. -/
theorem C3_bounded_history_counterexample :
    SuccessionFile.defaultMaxHistory ≠ 25 ∧
    (SuccessionFile.stateHistory
        (SuccessionFile.Claim SuccessionFile.defaultMaxHistory
          (.valid ⟨⟨"p", 0⟩,
            List.replicate 25 (SuccessionFile.HistoryEntry.mk "p" 0), 0⟩)
          "pod-new" 9)).length = 26 ∧
    ¬ ((SuccessionFile.stateHistory
        (SuccessionFile.Claim SuccessionFile.defaultMaxHistory
          (.valid ⟨⟨"p", 0⟩,
            List.replicate 25 (SuccessionFile.HistoryEntry.mk "p" 0), 0⟩)
          "pod-new" 9)).length ≤ 25) := by
  refine ⟨by decide, by decide, by decide⟩

/-- C3, amended (bounded history): the SQLite-backed Marker's `MAX_HISTORY`
is 25; after every SQLite `Claim` the log is the new entry followed by the
previous log cut to 25 (so its length is at most 25 and trimming removes only
the oldest, lowest-id entries, never the newest), and after any nonempty run
of claims from an empty store the history length is at most 25 with the
newest entry belonging to the last claimant. The file-backed Marker's default
capacity is 100, not 25; its takeover branch cuts the history to its
configured `maxHistory`, while its already-current branch performs no
trimming at all and leaves the log length unchanged. -/
theorem C3_bounded_history (db : Succession.DB) (identity : String)
    (ids : List String) (h : ids ≠ [])
    (maxHistory now : Nat) (data : SuccessionFile.HistoryData)
    (top : SuccessionFile.HistoryEntry)
    (rest : List SuccessionFile.HistoryEntry)
    (hdata : data.history = top :: rest) :
    Succession.MAX_HISTORY = 25 ∧
    (Succession.Claim db identity).rows.length ≤ Succession.MAX_HISTORY ∧
    (Succession.Claim db identity).rows =
      (Succession.HistoryEntry.mk db.nextId identity :: db.rows).take
        Succession.MAX_HISTORY ∧
    (Succession.GetHistory (Succession.claimMany Succession.emptyDB ids)).length ≤
      Succession.MAX_HISTORY ∧
    (Succession.GetHistory
        (Succession.claimMany Succession.emptyDB ids)).head?.map
        (fun e => e.owner) =
      ids.getLast? ∧
    SuccessionFile.defaultMaxHistory = 100 ∧
    (top.owner ≠ identity →
      (SuccessionFile.stateHistory
          (SuccessionFile.Claim maxHistory (.valid data) identity now)).length ≤
        maxHistory) ∧
    (top.owner = identity →
      (SuccessionFile.stateHistory
          (SuccessionFile.Claim maxHistory (.valid data) identity now)).length =
        data.history.length) := by
  obtain ⟨db', l, hl, hc⟩ := Succession.claimMany_factor ids Succession.emptyDB h
  refine ⟨rfl, Succession.claim_rows_length_le db identity,
    Succession.claim_rows_eq_take db identity, ?_, ?_, rfl, fun hne => ?_,
    fun htop => ?_⟩
  · rw [show Succession.GetHistory (Succession.claimMany Succession.emptyDB ids) =
        (Succession.claimMany Succession.emptyDB ids).rows from rfl, hc]
    exact Succession.claim_rows_length_le db' l
  · rw [show Succession.GetHistory (Succession.claimMany Succession.emptyDB ids) =
        (Succession.claimMany Succession.emptyDB ids).rows from rfl, hc,
      Succession.claim_head, hl]
    rfl
  · rw [SuccessionFile.fileClaim_takeover_eq maxHistory now identity
      data top rest hdata hne]
    simp only [SuccessionFile.stateHistory, List.length_take]
    exact min_le_left _ _
  · rw [SuccessionFile.fileClaim_current_eq maxHistory now identity
      data top rest hdata htop, hdata]
    simp [SuccessionFile.stateHistory]

/-- Witness for C3: 27 successive SQLite claims (two more than `MAX_HISTORY`)
leave at most 25 entries with the newest entry belonging to the last
claimant; a concrete file-backed takeover stays within its capacity of 100,
and a concrete file-backed reclaim by the current owner leaves the log length
at one. -/
theorem C3_bounded_history_witness :
    ((List.range 27).map (fun i => "pod-" ++ toString i)) ≠ [] ∧
    (Succession.GetHistory
        (Succession.claimMany Succession.emptyDB
          ((List.range 27).map (fun i => "pod-" ++ toString i)))).length ≤
      Succession.MAX_HISTORY ∧
    (Succession.GetHistory
        (Succession.claimMany Succession.emptyDB
          ((List.range 27).map (fun i => "pod-" ++ toString i)))).head?.map
        (fun e => e.owner) =
      ((List.range 27).map (fun i => "pod-" ++ toString i)).getLast? ∧
    (SuccessionFile.stateHistory
        (SuccessionFile.Claim 100
          (.valid ⟨⟨"pod-b", 3⟩, [⟨"pod-b", 3⟩, ⟨"pod-a", 0⟩], 2⟩)
          "pod-a" 5)).length ≤ 100 ∧
    (SuccessionFile.stateHistory
        (SuccessionFile.Claim 100
          (.valid ⟨⟨"pod-a", 0⟩, [⟨"pod-a", 0⟩], 1⟩) "pod-a" 5)).length = 1 := by
  have h : ((List.range 27).map (fun i => "pod-" ++ toString i)) ≠ [] := by
    simp [List.range_succ]
  have h1 := C3_bounded_history Succession.emptyDB "pod-a"
    ((List.range 27).map (fun i => "pod-" ++ toString i)) h 100 5
    ⟨⟨"pod-b", 3⟩, [⟨"pod-b", 3⟩, ⟨"pod-a", 0⟩], 2⟩ ⟨"pod-b", 3⟩
    [⟨"pod-a", 0⟩] rfl
  have h2 := C3_bounded_history Succession.emptyDB "pod-a"
    ((List.range 27).map (fun i => "pod-" ++ toString i)) h 100 5
    ⟨⟨"pod-a", 0⟩, [⟨"pod-a", 0⟩], 1⟩ ⟨"pod-a", 0⟩ [] rfl
  exact ⟨h, h1.2.2.2.1, h1.2.2.2.2.1,
    h1.2.2.2.2.2.2.1 (by decide), h2.2.2.2.2.2.2.2 (by decide)⟩

/-- C7 (asymmetric deadline handling): if every poll keeps the hugepages
verifier waiting, then when its context ends by deadline it returns `nil`
("proceeding anyway"), while on cancellation it returns `ctx.Err()`
(`context.Canceled`); the file-removal verifier, watching a still-existing
file and receiving no matching removal event, returns the `timeout waiting`
failure wrapping `ctx.Err()` for either termination reason. -/
theorem C7_asymmetric_deadline (obs : List Verifier.MemRead)
    (hobs : ∀ r ∈ obs, Verifier.hugePagesIterationDone r = false)
    (pattern : String) (events : List Verifier.FsEvent)
    (hev : ∀ e ∈ events, (e.isRemove && e.matchesPattern) = false) :
    Verifier.hugePagesVerify obs .deadlineExceeded = .ok () ∧
    Verifier.hugePagesVerify obs .canceled = .error .ctxCanceled ∧
    ∀ done : Verifier.CtxErr,
      Verifier.fileRemovalVerify pattern true events done =
        .error (.fileRemovalTimeout (Verifier.fileRemovalDescription pattern)
          done.toError) := by
  refine ⟨?_, ?_, fun done => ?_⟩
  · rw [Verifier.hugePagesVerify_waiting _ obs hobs]
    rfl
  · rw [Verifier.hugePagesVerify_waiting _ obs hobs]
    rfl
  · show Verifier.fileRemovalLoop pattern events done = _
    exact Verifier.fileRemovalLoop_no_match pattern done events hev

/-- Witness for C7 at a concrete schedule: one poll that observes no free
hugepages and a nonzero total, no watcher events. -/
theorem C7_asymmetric_deadline_witness :
    Verifier.hugePagesVerify [Verifier.MemRead.ok (some 0) (some 8)]
        .deadlineExceeded = .ok () ∧
    Verifier.hugePagesVerify [Verifier.MemRead.ok (some 0) (some 8)]
        .canceled = .error .ctxCanceled ∧
    Verifier.fileRemovalVerify "/var/run/x.pid" true [] .canceled =
      .error (.fileRemovalTimeout
        (Verifier.fileRemovalDescription "/var/run/x.pid") .ctxCanceled) := by
  have h := C7_asymmetric_deadline [Verifier.MemRead.ok (some 0) (some 8)]
    (by decide) "/var/run/x.pid" [] (by simp)
  exact ⟨h.1, h.2.1, h.2.2 .canceled⟩

/-- C8 (VerifierRunner result): `Run` with no verifiers succeeds; it succeeds
when every verifier's `Verify` succeeds; and when some verifier fails after
all verifiers encountered before it succeeded, it returns that first error,
wrapped with the failing verifier's description (and the runner's outer
`verification failed` wrap). -/
theorem C8_runner (vs : List Verifier.VerifierOutcome)
    (hall : ∀ v ∈ vs, v.result = .ok ())
    (pre : List Verifier.VerifierOutcome) (v : Verifier.VerifierOutcome)
    (post : List Verifier.VerifierOutcome) (e : Verifier.GoError)
    (hpre : ∀ w ∈ pre, w.result = .ok ()) (hv : v.result = .error e) :
    Verifier.Run [] = .ok () ∧
    Verifier.Run vs = .ok () ∧
    Verifier.Run (pre ++ v :: post) =
      .error (.verificationFailed (.verifierFailed v.description e)) := by
  refine ⟨rfl, ?_, ?_⟩
  · have hw : Verifier.waitAll (vs.map Verifier.goTask) = .ok () := by
      refine Verifier.waitAll_ok_of_forall _ (fun r hr => ?_)
      obtain ⟨w, hwv, rfl⟩ := List.mem_map.mp hr
      simp [Verifier.goTask, hall w hwv]
    simp [Verifier.Run, hw]
  · have hw := Verifier.waitAll_first_error v post e hv pre hpre
    unfold Verifier.Run
    rw [hw]

/-- Witness for C8 at concrete verifier sets. -/
theorem C8_runner_witness :
    Verifier.Run [Verifier.VerifierOutcome.mk "hugepages" (.ok ())] = .ok () ∧
    Verifier.Run
        [Verifier.VerifierOutcome.mk "hugepages" (.ok ()),
         Verifier.VerifierOutcome.mk "file_removal(/var/run/x.pid)"
           (.error .ctxCanceled)] =
      .error (.verificationFailed
        (.verifierFailed "file_removal(/var/run/x.pid)" .ctxCanceled)) := by
  have h := C8_runner [Verifier.VerifierOutcome.mk "hugepages" (.ok ())]
    (by simp)
    [Verifier.VerifierOutcome.mk "hugepages" (.ok ())]
    (Verifier.VerifierOutcome.mk "file_removal(/var/run/x.pid)"
      (.error .ctxCanceled))
    [] Verifier.GoError.ctxCanceled (by simp) rfl
  exact ⟨h.2.1, h.2.2⟩

/-- C9 (verdict exclusivity): every verdict `CheckSuccession` produces
without error has complementary components — `shouldProceed` is the negation
of `isReplaced` — in both the SQLite-backed and the file-backed `Marker`. -/
theorem C9_verdict_exclusive :
    (∀ (db : Succession.DB) (identity : String),
      (Succession.CheckSuccession db identity).1 =
        !(Succession.CheckSuccession db identity).2) ∧
    (∀ (fs : SuccessionFile.FileState) (identity : String) (r : Bool × Bool),
      SuccessionFile.CheckSuccession fs identity = .ok r → r.1 = !r.2) := by
  constructor
  · intro db identity
    unfold Succession.CheckSuccession
    by_cases h : Succession.CurrentOwner db = "" ∨
        Succession.CurrentOwner db = identity <;> simp [h]
  · intro fs identity r h
    cases fs with
    | absent =>
      simp only [SuccessionFile.CheckSuccession, SuccessionFile.readWithLock,
        Except.ok.injEq] at h
      rw [← h]
      rfl
    | corrupt =>
      exact absurd h (fun hh => Except.noConfusion hh)
    | valid d =>
      simp only [SuccessionFile.CheckSuccession, SuccessionFile.readWithLock] at h
      rcases hidx : d.history.findIdx? (fun entry => entry.owner = identity) with _ | n
      · rw [hidx] at h
        simp only [Except.ok.injEq] at h
        rw [← h]
        rfl
      · rw [hidx] at h
        cases n with
        | zero =>
          simp only [Except.ok.injEq] at h
          rw [← h]
          rfl
        | succ m =>
          simp only [Except.ok.injEq] at h
          rw [← h]
          rfl

/-- Witness for C9: the SQLite part at the empty database, and the file part
at an absent file, whose verdict `(true, false)` is complementary. -/
theorem C9_verdict_exclusive_witness :
    (Succession.CheckSuccession Succession.emptyDB "pod-a").1 =
      !(Succession.CheckSuccession Succession.emptyDB "pod-a").2 ∧
    ((true, false) : Bool × Bool).1 = !((true, false) : Bool × Bool).2 :=
  ⟨C9_verdict_exclusive.1 Succession.emptyDB "pod-a",
   C9_verdict_exclusive.2 .absent "pod-a" (true, false) rfl⟩

/-- C10 (reads leave the log unchanged): the stateful embeddings of
`CheckSuccession`, `CurrentOwner` and `GetHistory` return the store exactly
as they found it, for both the SQLite-backed and the file-backed `Marker`,
while `Claim` always produces a changed store. -/
theorem C10_reads_pure (db : Succession.DB) (identity : String)
    (fs : SuccessionFile.FileState) :
    (Succession.CheckSuccessionS db identity).1 = db ∧
    (Succession.CurrentOwnerS db).1 = db ∧
    (Succession.GetHistoryS db).1 = db ∧
    (SuccessionFile.CheckSuccessionS fs identity).1 = fs ∧
    (SuccessionFile.CurrentOwnerS fs).1 = fs ∧
    (SuccessionFile.GetHistoryS fs).1 = fs ∧
    (Succession.ClaimS db identity).1 ≠ db := by
  refine ⟨?_, rfl, rfl, rfl, rfl, rfl, ?_⟩
  · simp only [Succession.CheckSuccessionS]
    split <;> rfl
  · intro hcontra
    have : (Succession.ClaimS db identity).1.nextId = db.nextId := by rw [hcontra]
    simp [Succession.ClaimS, Succession.Claim] at this
